import Mathlib

/-!
# Verification of the cheatnote record store, persistence engine and match engine

Shallow embedding of the C sources (`src/notes_io.c`, `src/db.c`,
`src/utils.c`, `src/search.c`, constants from `cheatnote.h`).

Strings are modelled as `List Char` (the bytes of a NUL-terminated C string up
to, and excluding, the terminator).  The note buffer of the store is modelled
by its live prefix (the first `count` slots); the raw buffer including the
zero slots beyond `count` is modelled separately where a claim is about it
(capacity growth).  Machine integers are `Nat` with explicit `% 2^32` where
the C code can wrap (`next_id` is `unsigned int`).  Fallible operations
return `Option` or a `Bool × state` pair mirroring the C return value plus
the (possibly mutated) global store.
-/

/-! ## Constants from `cheatnote.h` -/

def MAX_TITLE_LEN : Nat := 256
def MAX_CONTENT_LEN : Nat := 8192
def MAX_TAGS_LEN : Nat := 512
def MAX_SEARCH_LEN : Nat := 256
def INITIAL_CAPACITY : Nat := 64
def GROWTH_FACTOR : Nat := 2
def MAX_NOTES : Nat := 1000000

/-- `UINT_MAX + 1` for a 32-bit `unsigned int` (`next_id`, note ids). -/
def UINT_MOD : Nat := 2 ^ 32

/-- `SIZE_MAX` for a 64-bit `size_t`. -/
def SIZE_MAX : Nat := 2 ^ 64 - 1

/-- `sizeof(cn_note)`: id 4 bytes at offset 0, title 256 bytes at 4,
content 8192 bytes at 260, tags 512 bytes at 8452, 4 bytes padding to align
the two 8-byte `time_t` fields at 8968 and 8976; total 8984. -/
def sizeof_cn_note : Nat := 8984

/-! ## Data model (`cheatnote.h`) -/

/-- A note record (`struct cn_note`).  Text fields hold the string value
stored in the fixed-size char array. -/
structure cn_note where
  id : Nat
  title : List Char
  content : List Char
  tags : List Char
  created_at : Int
  modified_at : Int
deriving Repr, DecidableEq

/-- The all-zero note record (a `memset`-to-0 slot). -/
def zeroNote : cn_note :=
  { id := 0, title := [], content := [], tags := [], created_at := 0, modified_at := 0 }

/-- The record store (`struct cn_note_db`): `notes` is the live prefix of the
buffer (its first `count` slots), so `count = notes.length`; `capacity` is the
allocated slot count. -/
structure cn_note_db where
  notes : List cn_note
  next_id : Nat
  capacity : Nat
deriving Repr, DecidableEq

/-! ## String helpers (`src/utils.c`) -/

/-- `isspace` in the C locale. -/
def cIsSpace (c : Char) : Bool :=
  c = ' ' || c = '\t' || c = '\n' || c = Char.ofNat 11 || c = Char.ofNat 12 || c = '\r'

/-- `cn_safe_strncpy(dest, src, dest_size)`: copy at most `dest_size - 1`
characters of `src` and NUL-terminate. -/
def cn_safe_strncpy (src : List Char) (dest_size : Nat) : List Char :=
  src.take (dest_size - 1)

/-- `cn_strip_whitespace`: trim trailing whitespace, then leading whitespace,
in place. -/
def cn_strip_whitespace (s : List Char) : List Char :=
  (((s.reverse.dropWhile cIsSpace).reverse).dropWhile cIsSpace)

/-! ## CRUD operations (`src/notes_io.c`)

The C operations mutate the global `db` and call `time(NULL)`; here the store
and the current time are explicit arguments. -/

/-- Numeric part of `ensure_capacity_for_one` (`src/notes_io.c`), for a store
whose buffer is already allocated: returns the new capacity, or `none` on
failure (cannot grow further, or the overflow guard trips). -/
def ensure_capacity_cap (count capacity : Nat) : Option Nat :=
  if count < capacity then some capacity
  else if SIZE_MAX / GROWTH_FACTOR / sizeof_cn_note < capacity then none
  else
    let new_capacity0 := capacity * GROWTH_FACTOR
    let new_capacity := if MAX_NOTES < new_capacity0 then MAX_NOTES else new_capacity0
    if new_capacity ≤ capacity then none
    else some new_capacity

/-- `ensure_capacity_for_one` at the buffer level, for the allocated case
(`db.notes != NULL`): `buf` is the whole allocated slot array
(`buf.length = capacity`).  `realloc` keeps the old bytes and the newly added
slots are `memset` to zero. -/
def ensure_capacity_for_one (buf : List cn_note) (count capacity : Nat) :
    Option (List cn_note × Nat) :=
  match ensure_capacity_cap count capacity with
  | none => none
  | some nc => some (buf ++ List.replicate (nc - capacity) zeroNote, nc)

/-- The tag string actually copied by `cn_note_add`: NULL or empty tags store
the empty string, otherwise a bounded copy of the argument. -/
def rawTagsOf (tags : Option (List Char)) : List Char :=
  match tags with
  | some t => if t = [] then [] else cn_safe_strncpy t MAX_TAGS_LEN
  | none => []

/-- `cn_note_add(title, content, tags)`: returns `some (new_id, db')` on
success and `none` on validation failure (the C function returns 0 and leaves
the store unchanged).  The two fatal paths (`MAX_NOTES` reached, growth or
allocation failure) terminate the process in C and yield no successor state;
they are folded into `none` here.  `tags = none` models a NULL pointer. -/
def cn_note_add (db : cn_note_db) (now : Int) (title content : List Char)
    (tags : Option (List Char)) : Option (Nat × cn_note_db) :=
  if title = [] || content = [] then none
  else if MAX_TITLE_LEN ≤ title.length || MAX_CONTENT_LEN ≤ content.length then none
  else if (match tags with
           | some t => decide (MAX_TAGS_LEN ≤ t.length)
           | none => false) then none
  else if MAX_NOTES ≤ db.notes.length then none
  else
    match ensure_capacity_cap db.notes.length db.capacity with
    | none => none
    | some cap' =>
      let id := db.next_id
      let next1 := (db.next_id + 1) % UINT_MOD
      let next2 := if next1 = 0 then 1 else next1
      let rawTags : List Char := rawTagsOf tags
      let note : cn_note :=
        { id := id
          title := cn_strip_whitespace (cn_safe_strncpy title MAX_TITLE_LEN)
          content := cn_strip_whitespace (cn_safe_strncpy content MAX_CONTENT_LEN)
          tags := cn_strip_whitespace rawTags
          created_at := now
          modified_at := now }
      some (id, { db with notes := db.notes ++ [note], next_id := next2, capacity := cap' })

/-- Index of the first note with the given id (the `for` loop in
`cn_note_edit` / `cn_note_delete`). -/
def cn_findIdx (id : Nat) : List cn_note → Option Nat
  | [] => none
  | n :: t => if n.id = id then some 0 else (cn_findIdx id t).map (· + 1)

/-- Tags block of `cn_note_edit` (runs after title and content were applied),
then the final `modified_at = time(NULL); return 1;`.  Returns the C return
value paired with the note as left in memory. -/
def applyEditTags (now : Int) (tags : Option (List Char)) (note : cn_note) :
    Bool × cn_note :=
  match tags with
  | none => (true, { note with modified_at := now })
  | some t =>
    if MAX_TAGS_LEN ≤ t.length then (false, note)
    else (true, { note with tags := cn_strip_whitespace (cn_safe_strncpy t MAX_TAGS_LEN),
                            modified_at := now })

/-- Content block of `cn_note_edit`; on an oversized content the C code
returns 0 immediately, leaving any title already applied in place. -/
def applyEditContent (now : Int) (content : List Char) (tags : Option (List Char))
    (note : cn_note) : Bool × cn_note :=
  if content = [] then applyEditTags now tags note
  else if MAX_CONTENT_LEN ≤ content.length then (false, note)
  else applyEditTags now tags
    { note with content := cn_strip_whitespace (cn_safe_strncpy content MAX_CONTENT_LEN) }

/-- Title block of `cn_note_edit`. -/
def applyEditFields (now : Int) (title content : List Char) (tags : Option (List Char))
    (note : cn_note) : Bool × cn_note :=
  if title = [] then applyEditContent now content tags note
  else if MAX_TITLE_LEN ≤ title.length then (false, note)
  else applyEditContent now content tags
    { note with title := cn_strip_whitespace (cn_safe_strncpy title MAX_TITLE_LEN) }

/-- `cn_note_edit(id, title, content, tags)`: returns the C return value
(1 = success) together with the resulting store.  A failing bound check in
the middle of the field blocks leaves earlier blocks' writes in the store,
exactly as in the C code.  `title = []` / `content = []` cover both NULL and
empty, which the C code treats identically; `tags = none` is NULL. -/
def cn_note_edit (db : cn_note_db) (now : Int) (id : Nat) (title content : List Char)
    (tags : Option (List Char)) : Bool × cn_note_db :=
  if id = 0 then (false, db)
  else
    match cn_findIdx id db.notes with
    | none => (false, db)
    | some i =>
      let n := db.notes.getD i zeroNote
      let r := applyEditFields now title content tags n
      (r.1, { db with notes := db.notes.set i r.2 })

/-- `cn_note_delete(id)`: swap the last live slot into the deleted slot
(`notes[i] = notes[count-1]`, a no-op when `i = count - 1`), zero the vacated
last slot and decrement `count`.  On the live prefix this is
`(set i last).dropLast`. -/
def cn_note_delete (db : cn_note_db) (id : Nat) : Bool × cn_note_db :=
  if id = 0 then (false, db)
  else
    match cn_findIdx id db.notes with
    | none => (false, db)
    | some i =>
      let last := db.notes.getD (db.notes.length - 1) zeroNote
      (true, { db with notes := (db.notes.set i last).dropLast })

/-! ## Persistence (`src/db.c`) -/

/-- `cn_db_init`: the fresh empty store (`INITIAL_CAPACITY` zeroed slots,
`count = 0`, `next_id = 1`). -/
def cn_db_init : cn_note_db :=
  { notes := [], next_id := 1, capacity := INITIAL_CAPACITY }

/-- What `cn_db_load` can observe of the snapshot file: the file may be
missing (`fopen` fails), its header read may fail short, or it has a header
(`count`, `next_id`) followed by the records that are actually readable
(fewer than `count` of them on a truncated file). -/
inductive SnapFile where
  | missing
  | badHeader
  | good (count : Nat) (next_id : Nat) (records : List cn_note)
deriving Repr, DecidableEq

/-- Capacity chosen by `cn_db_load` for `file_count` records. -/
def loadCap (file_count : Nat) : Nat :=
  let cap := if file_count < INITIAL_CAPACITY then INITIAL_CAPACITY else file_count
  if cap < file_count * GROWTH_FACTOR && file_count * GROWTH_FACTOR ≤ MAX_NOTES then
    file_count * GROWTH_FACTOR
  else cap

/-- Post-load sanitization: `title[MAX_TITLE_LEN-1] = '\0'` etc. forcibly
terminates each field at its bound, i.e. truncates the field value to at most
`bound - 1` characters. -/
def sanitizeNote (n : cn_note) : cn_note :=
  { n with title := n.title.take (MAX_TITLE_LEN - 1),
           content := n.content.take (MAX_CONTENT_LEN - 1),
           tags := n.tags.take (MAX_TAGS_LEN - 1) }

/-- `cn_db_load`, as a function from the readable file to the store it leaves
behind, starting (as in `main`) from the unloaded initial state.  Allocation
is modelled as succeeding (`calloc` failure is a fatal resource error, not a
file condition). -/
def cn_db_load (f : SnapFile) : cn_note_db :=
  match f with
  | .missing => cn_db_init
  | .badHeader => cn_db_init
  | .good file_count file_next_id records =>
    if MAX_NOTES < file_count || file_next_id = 0 then cn_db_init
    else if file_count = 0 then { cn_db_init with next_id := file_next_id }
    else if records.length < file_count then cn_db_init
    else
      { notes := (records.take file_count).map sanitizeNote,
        next_id := file_next_id,
        capacity := loadCap file_count }

/-- `cn_db_save` on the successful path: header (`count`, `next_id`) followed
by the `count` live records, written verbatim. -/
def cn_db_save (db : cn_note_db) : SnapFile :=
  .good db.notes.length db.next_id db.notes

/-! ## Match engine (`src/search.c`) -/

/-- ASCII `tolower` in the C locale. -/
def cToLower (c : Char) : Char :=
  if 'A' ≤ c ∧ c ≤ 'Z' then Char.ofNat (c.toNat + 32) else c

/-- Lower-case a string byte-wise. -/
def lowerStr (s : List Char) : List Char := s.map cToLower

/-- Does `needle` start `hay`? -/
def startsWith : List Char → List Char → Bool
  | [], _ => true
  | _ :: _, [] => false
  | a :: as, b :: bs => a = b && startsWith as bs

/-- `strstr`: `needle` occurs contiguously in `hay` (the empty needle always
occurs). -/
def isSubstr (needle : List Char) : List Char → Bool
  | [] => needle = []
  | c :: t => startsWith needle (c :: t) || isSubstr needle t

/-- One comma-split of a string (the `strtok_r(.., ",", ..)` loop produces
exactly the non-empty pieces of this split, and `cn_note_match_tags` ignores
pieces that trim to empty anyway). -/
def splitCommas : List Char → List (List Char)
  | [] => [[]]
  | c :: t =>
    if c = ',' then [] :: splitCommas t
    else match splitCommas t with
      | [] => [[c]]
      | p :: ps => (c :: p) :: ps

/-- `cn_note_match_tags(note_tags, search_tags)` (`src/search.c`): `[]`
models both NULL and the empty string, which the C guards treat identically. -/
def cn_note_match_tags (note_tags search_tags : List Char) : Bool :=
  if search_tags = [] then true
  else if note_tags = [] then false
  else if MAX_TAGS_LEN ≤ note_tags.length || MAX_TAGS_LEN ≤ search_tags.length then false
  else
    let note_copy := lowerStr note_tags
    let search_copy := lowerStr search_tags
    (splitCommas search_copy).all fun tok =>
      let t := cn_strip_whitespace tok
      t = [] || isSubstr t note_copy

/-! ## Helper lemmas -/

theorem length_dropWhile_le' (p : Char → Bool) (l : List Char) :
    (l.dropWhile p).length ≤ l.length :=
  (List.dropWhile_sublist p).length_le

theorem strip_length_le (s : List Char) :
    (cn_strip_whitespace s).length ≤ s.length := by
  unfold cn_strip_whitespace
  calc (((s.reverse.dropWhile cIsSpace).reverse).dropWhile cIsSpace).length
      ≤ ((s.reverse.dropWhile cIsSpace).reverse).length := length_dropWhile_le' _ _
    _ = (s.reverse.dropWhile cIsSpace).length := List.length_reverse _
    _ ≤ s.reverse.length := length_dropWhile_le' _ _
    _ = s.length := List.length_reverse _

theorem strip_strncpy_length_lt (s : List Char) (k : Nat) (hk : 0 < k) :
    (cn_strip_whitespace (cn_safe_strncpy s k)).length < k := by
  have h1 := strip_length_le (cn_safe_strncpy s k)
  have h2 : (cn_safe_strncpy s k).length ≤ k - 1 := by
    unfold cn_safe_strncpy
    rw [List.length_take]
    omega
  omega

theorem strip_eq_nil_iff (s : List Char) :
    cn_strip_whitespace s = [] ↔ ∀ c ∈ s, cIsSpace c := by
  unfold cn_strip_whitespace
  rw [List.dropWhile_eq_nil_iff]
  constructor
  · intro h c hc
    have hc' : c ∈ s.reverse := List.mem_reverse.mpr hc
    rw [← List.takeWhile_append_dropWhile cIsSpace s.reverse] at hc'
    rcases List.mem_append.mp hc' with h1 | h1
    · exact List.mem_takeWhile_imp h1
    · exact h c (List.mem_reverse.mpr h1)
  · intro h c hc
    have : c ∈ s := by
      have h1 : c ∈ s.reverse.dropWhile cIsSpace := List.mem_reverse.mp hc
      have h2 : c ∈ s.reverse := (List.dropWhile_sublist cIsSpace).subset h1
      exact List.mem_reverse.mp h2
    exact h c this

theorem cn_findIdx_lt {id : Nat} :
    ∀ {l : List cn_note} {i : Nat}, cn_findIdx id l = some i → i < l.length := by
  intro l
  induction l with
  | nil => intro i h; simp [cn_findIdx] at h
  | cons a t ih =>
    intro i h
    unfold cn_findIdx at h
    by_cases ha : a.id = id
    · rw [if_pos ha] at h
      cases h
      simp
    · rw [if_neg ha] at h
      obtain ⟨j, hj, rfl⟩ := Option.map_eq_some'.mp h
      have := ih hj
      simp only [List.length_cons]
      omega

theorem cn_findIdx_getD {id : Nat} :
    ∀ {l : List cn_note} {i : Nat}, cn_findIdx id l = some i →
      (l.getD i zeroNote).id = id := by
  intro l
  induction l with
  | nil => intro i h; simp [cn_findIdx] at h
  | cons a t ih =>
    intro i h
    unfold cn_findIdx at h
    by_cases ha : a.id = id
    · rw [if_pos ha] at h
      cases h
      simpa using ha
    · rw [if_neg ha] at h
      obtain ⟨j, hj, rfl⟩ := Option.map_eq_some'.mp h
      simpa [List.getD_cons_succ] using ih hj

theorem cn_findIdx_of_mem {id : Nat} :
    ∀ {l : List cn_note}, id ∈ l.map cn_note.id → ∃ i, cn_findIdx id l = some i := by
  intro l
  induction l with
  | nil => intro h; simp at h
  | cons a t ih =>
    intro h
    unfold cn_findIdx
    by_cases ha : a.id = id
    · exact ⟨0, by rw [if_pos ha]⟩
    · rw [List.map_cons, List.mem_cons] at h
      rcases h with h | h
      · exact absurd h.symm ha
      · rcases ih h with ⟨i, hi⟩
        exact ⟨i + 1, by rw [if_neg ha, hi]; rfl⟩

theorem cn_findIdx_none {id : Nat} :
    ∀ {l : List cn_note}, cn_findIdx id l = none → id ∉ l.map cn_note.id := by
  intro l
  induction l with
  | nil => intro _; simp
  | cons a t ih =>
    intro h
    unfold cn_findIdx at h
    by_cases ha : a.id = id
    · rw [if_pos ha] at h; cases h
    · rw [if_neg ha] at h
      rw [Option.map_eq_none'] at h
      rw [List.map_cons, List.mem_cons]
      rintro (h1 | h1)
      · exact ha h1.symm
      · exact ih h h1

theorem set_getD_self (d : α) :
    ∀ (l : List α) (i : Nat), l.set i (l.getD i d) = l := by
  intro l
  induction l with
  | nil => intro i; simp
  | cons a t ih =>
    intro i
    cases i with
    | zero => simp
    | succ j =>
      rw [List.getD_cons_succ]
      show a :: t.set j (t.getD j d) = a :: t
      rw [ih j]

/-- The swap-with-last deletion on the live prefix is, up to permutation,
the removal of the `i`-th element. -/
theorem set_last_dropLast_perm (d : α) :
    ∀ (l : List α) (i : Nat), i < l.length →
      List.Perm ((l.set i (l.getD (l.length - 1) d)).dropLast) (l.eraseIdx i) := by
  intro l
  induction l with
  | nil => intro i hi; simp at hi
  | cons a t ih =>
    intro i hi
    cases i with
    | zero =>
      cases t with
      | nil => simp
      | cons b t' =>
        have hbt : (b :: t') ≠ [] := by simp
        have hv : (a :: b :: t').getD ((a :: b :: t').length - 1) d
            = (b :: t').getLast hbt := by
          show (a :: b :: t').getD (t'.length + 1) d = _
          rw [List.getD_cons_succ,
            List.getD_eq_getElem _ d (by simp : t'.length < (b :: t').length),
            List.getLast_eq_getElem]
          simp
        rw [hv]
        have hset : ((a :: b :: t').set 0 ((b :: t').getLast hbt)).dropLast
            = (b :: t').getLast hbt :: (b :: t').dropLast := by
          show ((b :: t').getLast hbt :: b :: t').dropLast = _
          rw [List.dropLast_cons_of_ne_nil hbt]
        rw [hset]
        show List.Perm _ (b :: t')
        have h1 : List.Perm ((b :: t').dropLast ++ [(b :: t').getLast hbt])
            ((b :: t').getLast hbt :: (b :: t').dropLast) :=
          List.perm_append_singleton _ _
        rw [List.dropLast_append_getLast hbt] at h1
        exact h1.symm
    | succ j =>
      have hj : j < t.length := by simpa using hi
      have hv : (a :: t).getD ((a :: t).length - 1) d = t.getD (t.length - 1) d := by
        cases t with
        | nil => simp at hj
        | cons b t' =>
          show (a :: b :: t').getD (t'.length + 1) d = _
          rw [List.getD_cons_succ]
          simp
      rw [hv]
      show (a :: t.set j (t.getD (t.length - 1) d)).dropLast.Perm (a :: t.eraseIdx j)
      have hne : t.set j (t.getD (t.length - 1) d) ≠ [] :=
        List.ne_nil_of_length_pos (by rw [List.length_set]; omega)
      rw [List.dropLast_cons_of_ne_nil hne]
      exact (ih j hj).cons a

theorem mem_eraseIdx_of_ne (d : α) :
    ∀ (l : List α) (i : Nat) (x : α), i < l.length → x ∈ l → x ≠ l.getD i d →
      x ∈ l.eraseIdx i := by
  intro l
  induction l with
  | nil => intro i x hi; simp at hi
  | cons a t ih =>
    intro i x hi hx hne
    cases i with
    | zero =>
      rw [List.getD_cons_zero] at hne
      rcases List.mem_cons.mp hx with h | h
      · exact absurd h hne
      · exact h
    | succ j =>
      rw [List.getD_cons_succ] at hne
      show x ∈ a :: t.eraseIdx j
      rcases List.mem_cons.mp hx with h | h
      · exact h ▸ List.mem_cons_self a _
      · exact List.mem_cons_of_mem a (ih j x (by simpa using hi) h hne)

theorem getD_not_mem_eraseIdx_map (f : α → β) (d : α) :
    ∀ (l : List α) (i : Nat), (l.map f).Nodup → i < l.length →
      f (l.getD i d) ∉ (l.eraseIdx i).map f := by
  intro l
  induction l with
  | nil => intro i _ hi; simp at hi
  | cons a t ih =>
    intro i hnd hi
    have hcons : (∀ x ∈ t, ¬ f x = f a) ∧ (t.map f).Nodup := by simpa using hnd
    rcases hcons with ⟨hna, hnt⟩
    cases i with
    | zero =>
      rw [List.getD_cons_zero]
      simpa using hna
    | succ j =>
      rw [List.getD_cons_succ]
      have hjt : j < t.length := by simpa using hi
      show f (t.getD j d) ∉ (a :: t.eraseIdx j).map f
      rw [List.map_cons, List.mem_cons]
      rintro (h | h)
      · have hmem : f (t.getD j d) ∈ t.map f := by
          rw [List.getD_eq_getElem t d hjt]
          exact List.mem_map.mpr ⟨t[j], List.getElem_mem hjt, rfl⟩
        rcases List.mem_map.mp hmem with ⟨x, hx, hfx⟩
        exact hna x hx (hfx.trans h)
      · exact ih j hnt hjt h

/-! ## Frame and bound facts about the edit blocks -/

theorem applyEditTags_spec (now : Int) (tags : Option (List Char)) (n : cn_note) :
    (applyEditTags now tags n).2.id = n.id ∧
    (applyEditTags now tags n).2.created_at = n.created_at ∧
    (applyEditTags now tags n).2.title = n.title ∧
    (applyEditTags now tags n).2.content = n.content ∧
    ((applyEditTags now tags n).2.tags = n.tags ∨
      (applyEditTags now tags n).2.tags.length < MAX_TAGS_LEN) := by
  unfold applyEditTags
  rcases tags with _ | t
  · simp
  · by_cases h : MAX_TAGS_LEN ≤ t.length
    · simp [h]
    · refine ⟨by simp [h], by simp [h], by simp [h], by simp [h], Or.inr ?_⟩
      simpa [h] using strip_strncpy_length_lt t MAX_TAGS_LEN (by norm_num [MAX_TAGS_LEN])

theorem applyEditContent_spec (now : Int) (content : List Char)
    (tags : Option (List Char)) (n : cn_note) :
    (applyEditContent now content tags n).2.id = n.id ∧
    (applyEditContent now content tags n).2.created_at = n.created_at ∧
    (applyEditContent now content tags n).2.title = n.title ∧
    ((applyEditContent now content tags n).2.content = n.content ∨
      (applyEditContent now content tags n).2.content.length < MAX_CONTENT_LEN) ∧
    ((applyEditContent now content tags n).2.tags = n.tags ∨
      (applyEditContent now content tags n).2.tags.length < MAX_TAGS_LEN) := by
  unfold applyEditContent
  by_cases hc : content = []
  · simp only [if_pos hc]
    obtain ⟨h1, h2, h3, h4, h5⟩ := applyEditTags_spec now tags n
    exact ⟨h1, h2, h3, Or.inl h4, h5⟩
  · by_cases hb : MAX_CONTENT_LEN ≤ content.length
    · simp [hc, hb]
    · simp only [if_neg hc, if_neg hb]
      obtain ⟨h1, h2, h3, h4, h5⟩ := applyEditTags_spec now tags
        { n with content := cn_strip_whitespace (cn_safe_strncpy content MAX_CONTENT_LEN) }
      refine ⟨h1, h2, h3, Or.inr ?_, h5⟩
      rw [h4]
      exact strip_strncpy_length_lt content MAX_CONTENT_LEN (by norm_num [MAX_CONTENT_LEN])

theorem applyEditFields_spec (now : Int) (title content : List Char)
    (tags : Option (List Char)) (n : cn_note) :
    (applyEditFields now title content tags n).2.id = n.id ∧
    (applyEditFields now title content tags n).2.created_at = n.created_at ∧
    ((applyEditFields now title content tags n).2.title = n.title ∨
      (applyEditFields now title content tags n).2.title.length < MAX_TITLE_LEN) ∧
    ((applyEditFields now title content tags n).2.content = n.content ∨
      (applyEditFields now title content tags n).2.content.length < MAX_CONTENT_LEN) ∧
    ((applyEditFields now title content tags n).2.tags = n.tags ∨
      (applyEditFields now title content tags n).2.tags.length < MAX_TAGS_LEN) := by
  unfold applyEditFields
  by_cases ht : title = []
  · simp only [if_pos ht]
    obtain ⟨h1, h2, h3, h4, h5⟩ := applyEditContent_spec now content tags n
    exact ⟨h1, h2, Or.inl h3, h4, h5⟩
  · by_cases hb : MAX_TITLE_LEN ≤ title.length
    · simp [ht, hb]
    · simp only [if_neg ht, if_neg hb]
      obtain ⟨h1, h2, h3, h4, h5⟩ := applyEditContent_spec now content tags
        { n with title := cn_strip_whitespace (cn_safe_strncpy title MAX_TITLE_LEN) }
      refine ⟨h1, h2, Or.inr ?_, h4, h5⟩
      rw [h3]
      exact strip_strncpy_length_lt title MAX_TITLE_LEN (by norm_num [MAX_TITLE_LEN])

/-! ## Store invariant and reachability -/

/-- Basic well-formedness of a store: the live count is within the ceiling,
the id counter is nonzero, every stored text field is strictly shorter than
its buffer. -/
def InvB (db : cn_note_db) : Prop :=
  db.notes.length ≤ MAX_NOTES ∧ db.next_id ≠ 0 ∧
  ∀ n ∈ db.notes, n.title.length < MAX_TITLE_LEN ∧
    n.content.length < MAX_CONTENT_LEN ∧ n.tags.length < MAX_TAGS_LEN

/-- Stores reachable from the initial store by any sequence of
`cn_note_add` / `cn_note_edit` / `cn_note_delete` calls (including failing
calls, which in the C code may still leave a partial edit behind). -/
inductive Reach : cn_note_db → Prop where
  | init : Reach cn_db_init
  | add {db : cn_note_db} {now : Int} {title content : List Char}
      {tags : Option (List Char)} {id : Nat} {db' : cn_note_db} :
      Reach db → cn_note_add db now title content tags = some (id, db') → Reach db'
  | edit {db : cn_note_db} (now : Int) (id : Nat) (title content : List Char)
      (tags : Option (List Char)) :
      Reach db → Reach (cn_note_edit db now id title content tags).2
  | del {db : cn_note_db} (id : Nat) :
      Reach db → Reach (cn_note_delete db id).2

/-- Successful `cn_note_add` analyzed: the validation facts it implies and
the exact shape of the note it appends. -/
theorem add_some_shape {db : cn_note_db} {now : Int} {title content : List Char}
    {tags : Option (List Char)} {id : Nat} {db' : cn_note_db}
    (h : cn_note_add db now title content tags = some (id, db')) :
    title ≠ [] ∧ content ≠ [] ∧
    title.length < MAX_TITLE_LEN ∧ content.length < MAX_CONTENT_LEN ∧
    db.notes.length < MAX_NOTES ∧ id = db.next_id ∧
    ∃ cap', ensure_capacity_cap db.notes.length db.capacity = some cap' ∧
      db' = { notes := db.notes ++
                [{ id := db.next_id,
                   title := cn_strip_whitespace (cn_safe_strncpy title MAX_TITLE_LEN),
                   content := cn_strip_whitespace (cn_safe_strncpy content MAX_CONTENT_LEN),
                   tags := cn_strip_whitespace (rawTagsOf tags),
                   created_at := now, modified_at := now }],
              next_id := if (db.next_id + 1) % UINT_MOD = 0 then 1
                         else (db.next_id + 1) % UINT_MOD,
              capacity := cap' } := by
  have htne : title ≠ [] := by
    intro hx; unfold cn_note_add at h; simp [hx] at h
  have hcne : content ≠ [] := by
    intro hx; unfold cn_note_add at h; simp [hx] at h
  have htlen : title.length < MAX_TITLE_LEN := by
    by_contra hx
    unfold cn_note_add at h; simp [Nat.not_lt.mp hx] at h
  have hclen : content.length < MAX_CONTENT_LEN := by
    by_contra hx
    unfold cn_note_add at h; simp [Nat.not_lt.mp hx] at h
  have hcount : db.notes.length < MAX_NOTES := by
    by_contra hx
    unfold cn_note_add at h; simp [Nat.not_lt.mp hx] at h
  have htags : ∀ t, tags = some t → t.length < MAX_TAGS_LEN := by
    intro t ht
    by_contra hx
    unfold cn_note_add at h; simp [ht, Nat.not_lt.mp hx] at h
  unfold cn_note_add at h
  rw [if_neg (by simp [htne, hcne])] at h
  rw [if_neg (by simp [Nat.not_le.mpr htlen, Nat.not_le.mpr hclen])] at h
  rw [if_neg (by
    cases tags with
    | none => simp
    | some t => simp [Nat.not_le.mpr (htags t rfl)])] at h
  rw [if_neg (Nat.not_le.mpr hcount)] at h
  cases hcap : ensure_capacity_cap db.notes.length db.capacity with
  | none => rw [hcap] at h; simp at h
  | some cap' =>
    rw [hcap] at h
    simp only [Option.some.injEq, Prod.mk.injEq] at h
    obtain ⟨hid, hdb'⟩ := h
    exact ⟨htne, hcne, htlen, hclen, hcount, hid.symm, cap', rfl, hdb'.symm⟩

theorem strip_rawTags_length_lt (tags : Option (List Char)) :
    (cn_strip_whitespace (rawTagsOf tags)).length < MAX_TAGS_LEN := by
  rcases tags with _ | t
  · simp [rawTagsOf, cn_strip_whitespace, MAX_TAGS_LEN]
  · by_cases ht : t = []
    · simp [rawTagsOf, ht, cn_strip_whitespace, MAX_TAGS_LEN]
    · simpa [rawTagsOf, ht] using
        strip_strncpy_length_lt t MAX_TAGS_LEN (by norm_num [MAX_TAGS_LEN])

theorem InvB_add {db : cn_note_db} {now : Int} {title content : List Char}
    {tags : Option (List Char)} {id : Nat} {db' : cn_note_db}
    (hI : InvB db) (h : cn_note_add db now title content tags = some (id, db')) :
    InvB db' := by
  obtain ⟨-, -, -, -, hcount, -, cap', -, rfl⟩ := add_some_shape h
  obtain ⟨hc, hn, hb⟩ := hI
  refine ⟨by simpa using hcount, ?_, ?_⟩
  · dsimp only
    split
    · exact one_ne_zero
    · assumption
  · intro n hn'
    rcases List.mem_append.mp hn' with hmem | hmem
    · exact hb n hmem
    · rw [List.mem_singleton] at hmem
      subst hmem
      refine ⟨?_, ?_, ?_⟩
      · exact strip_strncpy_length_lt title MAX_TITLE_LEN (by norm_num [MAX_TITLE_LEN])
      · exact strip_strncpy_length_lt content MAX_CONTENT_LEN (by norm_num [MAX_CONTENT_LEN])
      · exact strip_rawTags_length_lt tags

theorem InvB_edit {db : cn_note_db} (now : Int) (id : Nat) (title content : List Char)
    (tags : Option (List Char)) (hI : InvB db) :
    InvB (cn_note_edit db now id title content tags).2 := by
  unfold cn_note_edit
  by_cases h0 : id = 0
  · simpa [h0] using hI
  · rw [if_neg h0]
    cases hf : cn_findIdx id db.notes with
    | none => simpa using hI
    | some i =>
      simp only
      obtain ⟨hc, hn, hb⟩ := hI
      have hi := cn_findIdx_lt hf
      refine ⟨by simpa [List.length_set] using hc, hn, ?_⟩
      intro n hn'
      rcases List.mem_or_eq_of_mem_set hn' with hmem | hmem
      · exact hb n hmem
      · subst hmem
        obtain ⟨-, -, h3, h4, h5⟩ := applyEditFields_spec now title content tags
          (db.notes.getD i zeroNote)
        have hmemD : db.notes.getD i zeroNote ∈ db.notes := by
          rw [List.getD_eq_getElem _ _ hi]
          exact List.getElem_mem hi
        obtain ⟨b1, b2, b3⟩ := hb _ hmemD
        refine ⟨?_, ?_, ?_⟩
        · rcases h3 with h | h
          · rw [h]; exact b1
          · exact h
        · rcases h4 with h | h
          · rw [h]; exact b2
          · exact h
        · rcases h5 with h | h
          · rw [h]; exact b3
          · exact h

theorem InvB_delete {db : cn_note_db} (id : Nat) (hI : InvB db) :
    InvB (cn_note_delete db id).2 := by
  unfold cn_note_delete
  by_cases h0 : id = 0
  · simpa [h0] using hI
  · rw [if_neg h0]
    cases hf : cn_findIdx id db.notes with
    | none => simpa using hI
    | some i =>
      simp only
      obtain ⟨hc, hn, hb⟩ := hI
      have hi := cn_findIdx_lt hf
      have hperm := set_last_dropLast_perm zeroNote db.notes i hi
      refine ⟨?_, hn, ?_⟩
      · rw [List.length_dropLast, List.length_set]
        omega
      · intro n hn'
        have hmem : n ∈ db.notes.eraseIdx i := hperm.mem_iff.mp hn'
        exact hb n ((List.eraseIdx_sublist _ i).subset hmem)

theorem reach_InvB {db : cn_note_db} (h : Reach db) : InvB db := by
  induction h with
  | init =>
    exact ⟨by norm_num [cn_db_init, MAX_NOTES], by norm_num [cn_db_init],
      by simp [cn_db_init]⟩
  | add _ hadd ih => exact InvB_add ih hadd
  | edit now id title content tags _ ih => exact InvB_edit now id title content tags ih
  | del id _ ih => exact InvB_delete id ih

theorem sanitizeNote_eq_self {n : cn_note}
    (h1 : n.title.length < MAX_TITLE_LEN) (h2 : n.content.length < MAX_CONTENT_LEN)
    (h3 : n.tags.length < MAX_TAGS_LEN) : sanitizeNote n = n := by
  have t1 : n.title.take (MAX_TITLE_LEN - 1) = n.title :=
    List.take_of_length_le (by omega)
  have t2 : n.content.take (MAX_CONTENT_LEN - 1) = n.content :=
    List.take_of_length_le (by omega)
  have t3 : n.tags.take (MAX_TAGS_LEN - 1) = n.tags :=
    List.take_of_length_le (by omega)
  unfold sanitizeNote
  rw [t1, t2, t3]

/-- C1: saving a reachable store and loading the result gives back the same
live notes (hence identical per-note fields), the same `next_id` and the
same count. -/
theorem save_load_round_trip (db : cn_note_db) (h : Reach db) :
    (cn_db_load (cn_db_save db)).notes = db.notes ∧
    (cn_db_load (cn_db_save db)).next_id = db.next_id ∧
    (cn_db_load (cn_db_save db)).notes.length = db.notes.length := by
  obtain ⟨hc, hn, hb⟩ := reach_InvB h
  unfold cn_db_save cn_db_load
  dsimp only
  rw [if_neg (by simp [Nat.not_lt.mpr hc, hn])]
  by_cases h0 : db.notes.length = 0
  · rw [if_pos h0]
    have hnil : db.notes = [] := List.length_eq_zero.mp h0
    exact ⟨by simp [cn_db_init, hnil], rfl, by simp [cn_db_init, hnil]⟩
  · rw [if_neg h0]
    rw [if_neg (by omega : ¬ db.notes.length < db.notes.length)]
    rw [List.take_length]
    have hmap : db.notes.map sanitizeNote = db.notes := by
      have hcg : db.notes.map sanitizeNote = db.notes.map id :=
        List.map_congr_left (fun a ha => by
          obtain ⟨b1, b2, b3⟩ := hb a ha
          exact sanitizeNote_eq_self b1 b2 b3)
      rw [hcg, List.map_id]
    exact ⟨hmap, rfl, by rw [hmap]⟩

/-- Witness for C1 at a concrete reachable one-note store. -/
theorem save_load_round_trip_witness :
    (cn_db_load (cn_db_save
      { notes := [{ id := 1, title := ['a'], content := ['b'], tags := [],
                    created_at := 0, modified_at := 0 }],
        next_id := 2, capacity := 64 })).notes =
      [{ id := 1, title := ['a'], content := ['b'], tags := [],
         created_at := 0, modified_at := 0 }] ∧
    (cn_db_load (cn_db_save
      { notes := [{ id := 1, title := ['a'], content := ['b'], tags := [],
                    created_at := 0, modified_at := 0 }],
        next_id := 2, capacity := 64 })).next_id = 2 ∧
    (cn_db_load (cn_db_save
      { notes := [{ id := 1, title := ['a'], content := ['b'], tags := [],
                    created_at := 0, modified_at := 0 }],
        next_id := 2, capacity := 64 })).notes.length = 1 :=
  save_load_round_trip
    { notes := [{ id := 1, title := ['a'], content := ['b'], tags := [],
                  created_at := 0, modified_at := 0 }],
      next_id := 2, capacity := 64 }
    (Reach.add Reach.init
      (show cn_note_add cn_db_init 0 ['a'] ['b'] none = some (1, _) by decide))

/-- C8: loading a snapshot with a valid header and `count == 0` yields an
empty store that preserves the file's `next_id`, so ids are not reused after
an emptied store was saved. -/
theorem load_zero_count_preserves_next_id (nid : Nat) (recs : List cn_note)
    (h : nid ≠ 0) :
    cn_db_load (SnapFile.good 0 nid recs) =
      { notes := [], next_id := nid, capacity := INITIAL_CAPACITY } := by
  simp [cn_db_load, h, cn_db_init, MAX_NOTES]

/-- Witness for C8 at `next_id = 7`. -/
theorem load_zero_count_preserves_next_id_witness :
    cn_db_load (SnapFile.good 0 7 []) =
      { notes := [], next_id := 7, capacity := INITIAL_CAPACITY } :=
  load_zero_count_preserves_next_id 7 [] (by decide)

/-- C9: every malformed snapshot — missing file, failed header read,
implausible header (`count > MAX_NOTES` or `next_id == 0`), or short record
read — makes `cn_db_load` fall back to the fresh empty store
(`count = 0`, `next_id = 1`); `cn_db_load` is a total function, it never
propagates an error. -/
theorem load_malformed_returns_fresh :
    (cn_db_load SnapFile.missing = cn_db_init) ∧
    (cn_db_load SnapFile.badHeader = cn_db_init) ∧
    (∀ c n recs, MAX_NOTES < c → cn_db_load (SnapFile.good c n recs) = cn_db_init) ∧
    (∀ c recs, cn_db_load (SnapFile.good c 0 recs) = cn_db_init) ∧
    (∀ c n recs, n ≠ 0 → c ≤ MAX_NOTES → List.length (recs : List cn_note) < c →
      cn_db_load (SnapFile.good c n recs) = cn_db_init) ∧
    cn_db_init.notes.length = 0 ∧ cn_db_init.next_id = 1 := by
  refine ⟨rfl, rfl, ?_, ?_, ?_, rfl, rfl⟩
  · intro c n recs hc
    simp [cn_db_load, hc]
  · intro c recs
    simp [cn_db_load]
  · intro c n recs hn hc hshort
    have hc0 : c ≠ 0 := by omega
    simp [cn_db_load, hn, Nat.not_lt.mpr hc, hc0, hshort]

/-- Witness for C9's conditional conjuncts at concrete malformed headers. -/
theorem load_malformed_returns_fresh_witness :
    cn_db_load (SnapFile.good 1000001 5 []) = cn_db_init ∧
    cn_db_load (SnapFile.good 2 5 []) = cn_db_init :=
  ⟨load_malformed_returns_fresh.2.2.1 1000001 5 [] (by norm_num [MAX_NOTES]),
   load_malformed_returns_fresh.2.2.2.2.1 2 5 []
     (by decide) (by norm_num [MAX_NOTES]) (by decide)⟩

/-- C10: editing an existing note with no field supplied (NULL/empty title
and content, NULL tags) succeeds and only refreshes that note's
`modified_at`; id, title, content, tags, `created_at`, the other notes,
`next_id` and the capacity are unchanged. -/
theorem edit_no_fields_updates_modified_only (db : cn_note_db) (now : Int)
    (id i : Nat) (h0 : id ≠ 0) (hf : cn_findIdx id db.notes = some i) :
    cn_note_edit db now id [] [] none =
      (true, { db with notes := db.notes.set i ({ db.notes.getD i zeroNote with modified_at := now }) }) := by
  unfold cn_note_edit
  rw [if_neg h0]
  simp only [hf]
  unfold applyEditFields applyEditContent applyEditTags
  simp

/-- Witness for C10 on a concrete one-note store. -/
theorem edit_no_fields_updates_modified_only_witness :
    cn_note_edit
      { notes := [{ id := 1, title := ['a'], content := ['b'], tags := ['t'],
                    created_at := 3, modified_at := 4 }],
        next_id := 2, capacity := 64 } 9 1 [] [] none =
      (true,
       { notes := [{ id := 1, title := ['a'], content := ['b'], tags := ['t'],
                     created_at := 3, modified_at := 9 }],
         next_id := 2, capacity := 64 }) := by
  have h := edit_no_fields_updates_modified_only
    { notes := [{ id := 1, title := ['a'], content := ['b'], tags := ['t'],
                  created_at := 3, modified_at := 4 }],
      next_id := 2, capacity := 64 } 9 1 0 (by decide) (by decide)
  simpa using h

/-- C4: deleting the id of a live note from a store whose live notes carry
pairwise-distinct nonzero ids succeeds, shrinks the count by exactly one,
removes that id, and keeps every other note present with unchanged field
values (notes are compared as whole values, so field preservation is
membership of the identical record). -/
theorem delete_existing_id_spec (db : cn_note_db) (id : Nat)
    (h0 : id ≠ 0) (hmem : id ∈ db.notes.map cn_note.id)
    (hnd : (db.notes.map cn_note.id).Nodup) :
    (cn_note_delete db id).1 = true ∧
    (cn_note_delete db id).2.notes.length = db.notes.length - 1 ∧
    id ∉ (cn_note_delete db id).2.notes.map cn_note.id ∧
    (∀ n ∈ db.notes, n.id ≠ id → n ∈ (cn_note_delete db id).2.notes) ∧
    (∀ n ∈ (cn_note_delete db id).2.notes, n ∈ db.notes) := by
  obtain ⟨i, hf⟩ := cn_findIdx_of_mem hmem
  have hi := cn_findIdx_lt hf
  have hid := cn_findIdx_getD hf
  unfold cn_note_delete
  rw [if_neg h0]
  simp only [hf]
  have hperm := set_last_dropLast_perm zeroNote db.notes i hi
  refine ⟨trivial, ?_, ?_, ?_, ?_⟩
  · rw [List.length_dropLast, List.length_set]
  · have habs := getD_not_mem_eraseIdx_map cn_note.id zeroNote db.notes i hnd hi
    rw [hid] at habs
    have hpm := hperm.map cn_note.id
    intro hx
    exact habs (hpm.mem_iff.mp hx)
  · intro n hn hne
    apply hperm.mem_iff.mpr
    apply mem_eraseIdx_of_ne zeroNote db.notes i n hi hn
    intro he
    exact hne (by rw [he, hid])
  · intro n hn
    exact (List.eraseIdx_sublist _ i).subset (hperm.mem_iff.mp hn)

/-- Witness for C4 on a concrete two-note store (deleting the first note
swaps the second into its slot). -/
theorem delete_existing_id_spec_witness :
    (cn_note_delete
      { notes := [{ id := 1, title := ['a'], content := ['b'], tags := [],
                    created_at := 0, modified_at := 0 },
                  { id := 2, title := ['c'], content := ['d'], tags := [],
                    created_at := 0, modified_at := 0 }],
        next_id := 3, capacity := 64 } 1).1 = true ∧
    (cn_note_delete
      { notes := [{ id := 1, title := ['a'], content := ['b'], tags := [],
                    created_at := 0, modified_at := 0 },
                  { id := 2, title := ['c'], content := ['d'], tags := [],
                    created_at := 0, modified_at := 0 }],
        next_id := 3, capacity := 64 } 1).2.notes.length = 2 - 1 ∧
    1 ∉ (cn_note_delete
      { notes := [{ id := 1, title := ['a'], content := ['b'], tags := [],
                    created_at := 0, modified_at := 0 },
                  { id := 2, title := ['c'], content := ['d'], tags := [],
                    created_at := 0, modified_at := 0 }],
        next_id := 3, capacity := 64 } 1).2.notes.map cn_note.id ∧
    (∀ n ∈ [{ id := 1, title := ['a'], content := ['b'], tags := [],
              created_at := 0, modified_at := 0 },
            { id := 2, title := ['c'], content := ['d'], tags := [],
              created_at := 0, modified_at := (0 : Int) }], n.id ≠ 1 →
      n ∈ (cn_note_delete
        { notes := [{ id := 1, title := ['a'], content := ['b'], tags := [],
                      created_at := 0, modified_at := 0 },
                    { id := 2, title := ['c'], content := ['d'], tags := [],
                      created_at := 0, modified_at := 0 }],
          next_id := 3, capacity := 64 } 1).2.notes) ∧
    (∀ n ∈ (cn_note_delete
        { notes := [{ id := 1, title := ['a'], content := ['b'], tags := [],
                      created_at := 0, modified_at := 0 },
                    { id := 2, title := ['c'], content := ['d'], tags := [],
                      created_at := 0, modified_at := 0 }],
          next_id := 3, capacity := 64 } 1).2.notes,
      n ∈ [{ id := 1, title := ['a'], content := ['b'], tags := [],
             created_at := 0, modified_at := 0 },
           { id := 2, title := ['c'], content := ['d'], tags := [],
             created_at := 0, modified_at := (0 : Int) }]) :=
  delete_existing_id_spec
    { notes := [{ id := 1, title := ['a'], content := ['b'], tags := [],
                  created_at := 0, modified_at := 0 },
                { id := 2, title := ['c'], content := ['d'], tags := [],
                  created_at := 0, modified_at := 0 }],
      next_id := 3, capacity := 64 } 1
    (by decide) (by decide) (by decide)

/-! ## Id uniqueness (C5) -/

/-- Stores reachable from the initial store by `cn_note_add` and
`cn_note_delete` calls, with the id counter never wrapping around (each add
happens while `next_id + 1` still fits in 32 bits). -/
inductive ReachAD : cn_note_db → Prop where
  | init : ReachAD cn_db_init
  | add {db : cn_note_db} {now : Int} {title content : List Char}
      {tags : Option (List Char)} {id : Nat} {db' : cn_note_db} :
      ReachAD db → db.next_id + 1 < UINT_MOD →
      cn_note_add db now title content tags = some (id, db') → ReachAD db'
  | del {db : cn_note_db} (id : Nat) : ReachAD db → ReachAD (cn_note_delete db id).2

/-- Uniqueness invariant: the counter is a positive 32-bit value and every
live id is a positive value below it, pairwise distinct. -/
def InvU (db : cn_note_db) : Prop :=
  0 < db.next_id ∧ db.next_id < UINT_MOD ∧
  (∀ n ∈ db.notes, 0 < n.id ∧ n.id < db.next_id) ∧
  (db.notes.map cn_note.id).Nodup

theorem InvU_add {db : cn_note_db} {now : Int} {title content : List Char}
    {tags : Option (List Char)} {id : Nat} {db' : cn_note_db}
    (hI : InvU db) (hw : db.next_id + 1 < UINT_MOD)
    (h : cn_note_add db now title content tags = some (id, db')) : InvU db' := by
  obtain ⟨-, -, -, -, -, -, cap', -, rfl⟩ := add_some_shape h
  obtain ⟨hpos, hlt, hball, hnd⟩ := hI
  have hmod : (db.next_id + 1) % UINT_MOD = db.next_id + 1 := Nat.mod_eq_of_lt hw
  have hnext : (if (db.next_id + 1) % UINT_MOD = 0 then 1
      else (db.next_id + 1) % UINT_MOD) = db.next_id + 1 := by
    rw [hmod, if_neg (by omega)]
  refine ⟨?_, ?_, ?_, ?_⟩
  · dsimp only; rw [hnext]; omega
  · dsimp only; rw [hnext]; exact hw
  · intro n hn
    dsimp only at hn ⊢
    rw [hnext]
    rcases List.mem_append.mp hn with hmem | hmem
    · have := hball n hmem; omega
    · rw [List.mem_singleton] at hmem
      subst hmem
      exact ⟨hpos, Nat.lt_succ_self _⟩
  · dsimp only
    rw [List.map_append, List.nodup_append]
    refine ⟨hnd, by simp, ?_⟩
    intro x hx
    simp only [List.map_cons, List.map_nil, List.mem_singleton]
    rcases List.mem_map.mp hx with ⟨m, hm, rfl⟩
    intro hc
    have hceq : m.id = db.next_id := hc
    have := hball m hm
    omega

theorem InvU_delete {db : cn_note_db} (id : Nat) (hI : InvU db) :
    InvU (cn_note_delete db id).2 := by
  unfold cn_note_delete
  by_cases h0 : id = 0
  · simpa [h0] using hI
  · rw [if_neg h0]
    cases hf : cn_findIdx id db.notes with
    | none => simpa using hI
    | some i =>
      simp only
      obtain ⟨hpos, hlt, hball, hnd⟩ := hI
      have hi := cn_findIdx_lt hf
      have hperm := set_last_dropLast_perm zeroNote db.notes i hi
      refine ⟨hpos, hlt, ?_, ?_⟩
      · intro n hn
        exact hball n ((List.eraseIdx_sublist _ i).subset (hperm.mem_iff.mp hn))
      · have hsub : List.Sublist ((db.notes.eraseIdx i).map cn_note.id)
            (db.notes.map cn_note.id) := (List.eraseIdx_sublist _ i).map cn_note.id
        exact (hperm.map cn_note.id).nodup_iff.mpr (hnd.sublist hsub)

theorem reachAD_InvU {db : cn_note_db} (h : ReachAD db) : InvU db := by
  induction h with
  | init =>
    refine ⟨by norm_num [cn_db_init], by norm_num [cn_db_init, UINT_MOD], ?_, ?_⟩
    · intro n hn; simp [cn_db_init] at hn
    · simp [cn_db_init]
  | add _ hw hadd ih => exact InvU_add ih hw hadd
  | del id _ ih => exact InvU_delete id ih

/-- C5: along any add/delete sequence from the empty store in which the id
counter never wraps, no two live notes share an id. -/
theorem ids_nodup_of_reachAD (db : cn_note_db) (h : ReachAD db) :
    (db.notes.map cn_note.id).Nodup :=
  (reachAD_InvU h).2.2.2

/-- Witness for C5 at a concrete store reached by one add. -/
theorem ids_nodup_of_reachAD_witness :
    (cn_note_db.notes
      { notes := [{ id := 1, title := ['a'], content := ['b'], tags := [],
                    created_at := 0, modified_at := 0 }],
        next_id := 2, capacity := 64 }).map cn_note.id |>.Nodup :=
  ids_nodup_of_reachAD
    { notes := [{ id := 1, title := ['a'], content := ['b'], tags := [],
                  created_at := 0, modified_at := 0 }],
      next_id := 2, capacity := 64 }
    (ReachAD.add ReachAD.init (by norm_num [cn_db_init, UINT_MOD])
      (show cn_note_add cn_db_init 0 ['a'] ['b'] none = some (1, _) by decide))

/-- C6: with a full store (`count == capacity`), growth computes
`capacity * GROWTH_FACTOR` clamped to `MAX_NOTES`; it fails exactly when the
clamped value does not exceed the current capacity; the overflow guard
refuses before any allocation, and every successful growth fits in `size_t`
(no wrap), keeps the previously stored slots and zero-initializes the new
ones. -/
theorem growth_policy_full (buf : List cn_note) (capacity : Nat)
    (hlen : buf.length = capacity) :
    (SIZE_MAX / GROWTH_FACTOR / sizeof_cn_note < capacity →
      ensure_capacity_for_one buf capacity capacity = none) ∧
    (ensure_capacity_for_one buf capacity capacity = none ↔
      min (capacity * GROWTH_FACTOR) MAX_NOTES ≤ capacity) ∧
    (∀ buf' nc, ensure_capacity_for_one buf capacity capacity = some (buf', nc) →
      nc = min (capacity * GROWTH_FACTOR) MAX_NOTES ∧
      capacity < nc ∧
      capacity * GROWTH_FACTOR * sizeof_cn_note ≤ SIZE_MAX ∧
      nc * sizeof_cn_note ≤ SIZE_MAX ∧
      buf' = buf ++ List.replicate (nc - capacity) zeroNote ∧
      buf'.take capacity = buf ∧
      buf'.drop capacity = List.replicate (nc - capacity) zeroNote) := by
  have hbig : MAX_NOTES ≤ SIZE_MAX / GROWTH_FACTOR / sizeof_cn_note := by
    norm_num [SIZE_MAX, GROWTH_FACTOR, sizeof_cn_note, MAX_NOTES]
  unfold ensure_capacity_for_one ensure_capacity_cap
  rw [if_neg (lt_irrefl capacity)]
  by_cases hg : SIZE_MAX / GROWTH_FACTOR / sizeof_cn_note < capacity
  · rw [if_pos hg]
    refine ⟨fun _ => rfl, ?_, ?_⟩
    · simp only [true_iff]
      have : MAX_NOTES < capacity := by omega
      have : min (capacity * GROWTH_FACTOR) MAX_NOTES ≤ MAX_NOTES := min_le_right _ _
      omega
    · intro buf' nc h
      simp at h
  · rw [if_neg hg]
    have hg' : capacity ≤ SIZE_MAX / GROWTH_FACTOR / sizeof_cn_note := Nat.not_lt.mp hg
    have hmin : (if MAX_NOTES < capacity * GROWTH_FACTOR then MAX_NOTES
        else capacity * GROWTH_FACTOR) = min (capacity * GROWTH_FACTOR) MAX_NOTES := by
      rw [Nat.min_def]
      split
      · split <;> omega
      · split <;> omega
    have hfit : capacity * GROWTH_FACTOR * sizeof_cn_note ≤ SIZE_MAX := by
      have h1 : capacity * sizeof_cn_note ≤ SIZE_MAX / GROWTH_FACTOR := by
        rw [Nat.le_div_iff_mul_le (by norm_num [sizeof_cn_note])] at hg'
        exact hg'
      rw [Nat.le_div_iff_mul_le (by norm_num [GROWTH_FACTOR])] at h1
      calc capacity * GROWTH_FACTOR * sizeof_cn_note
          = capacity * sizeof_cn_note * GROWTH_FACTOR := by ring
        _ ≤ SIZE_MAX := h1
    simp only [hmin]
    by_cases hle : min (capacity * GROWTH_FACTOR) MAX_NOTES ≤ capacity
    · rw [if_pos hle]
      exact ⟨fun hc => absurd hc hg, by simp [hle], fun buf' nc h => by simp at h⟩
    · rw [if_neg hle]
      refine ⟨fun hc => absurd hc hg, by simp [hle], ?_⟩
      intro buf' nc h
      simp only [Option.some.injEq, Prod.mk.injEq] at h
      obtain ⟨hbuf', hnc⟩ := h
      subst hnc
      refine ⟨rfl, by omega, hfit, ?_, hbuf'.symm, ?_, ?_⟩
      · calc min (capacity * GROWTH_FACTOR) MAX_NOTES * sizeof_cn_note
            ≤ capacity * GROWTH_FACTOR * sizeof_cn_note :=
              Nat.mul_le_mul_right _ (min_le_left _ _)
          _ ≤ SIZE_MAX := hfit
      · rw [hbuf'.symm, ← hlen, List.take_left]
      · rw [hbuf'.symm, ← hlen, List.drop_left]

/-- Witness for C6 at a concrete full store (`capacity = count = 2`). -/
theorem growth_policy_full_witness :
    (SIZE_MAX / GROWTH_FACTOR / sizeof_cn_note < 2 →
      ensure_capacity_for_one (List.replicate 2 zeroNote) 2 2 = none) ∧
    (ensure_capacity_for_one (List.replicate 2 zeroNote) 2 2 = none ↔
      min (2 * GROWTH_FACTOR) MAX_NOTES ≤ 2) ∧
    (∀ buf' nc, ensure_capacity_for_one (List.replicate 2 zeroNote) 2 2 = some (buf', nc) →
      nc = min (2 * GROWTH_FACTOR) MAX_NOTES ∧
      2 < nc ∧
      2 * GROWTH_FACTOR * sizeof_cn_note ≤ SIZE_MAX ∧
      nc * sizeof_cn_note ≤ SIZE_MAX ∧
      buf' = List.replicate 2 zeroNote ++ List.replicate (nc - 2) zeroNote ∧
      buf'.take 2 = List.replicate 2 zeroNote ∧
      buf'.drop 2 = List.replicate (nc - 2) zeroNote) :=
  growth_policy_full (List.replicate 2 zeroNote) 2 (by simp)

/-- `List.replicate k c` is nonempty when `k` is nonzero (stated via length
to avoid expanding the list). -/
theorem replicate_ne_nil_of_pos (k : Nat) (c : Char) (hk : k ≠ 0) :
    List.replicate k c ≠ [] := by
  intro hx
  have hlen := congrArg List.length hx
  rw [List.length_replicate] at hlen
  exact hk hlen

/-- C2 counterexample: editing note 1 with the valid title `"n"` and an
oversized content (`MAX_CONTENT_LEN` characters) is rejected (returns 0),
yet the note's title has already been replaced — the store is *not*
unchanged, contradicting the claim that no field is modified when edit
fails because a supplied title or content exceeds its bound. -/
theorem edit_oversized_content_commits_title :
    (cn_note_edit
      { notes := [{ id := 1, title := ['o'], content := ['b'], tags := [],
                    created_at := 3, modified_at := 3 }],
        next_id := 2, capacity := 64 } 9 1 ['n']
      (List.replicate MAX_CONTENT_LEN 'a') none).1 = false ∧
    (cn_note_edit
      { notes := [{ id := 1, title := ['o'], content := ['b'], tags := [],
                    created_at := 3, modified_at := 3 }],
        next_id := 2, capacity := 64 } 9 1 ['n']
      (List.replicate MAX_CONTENT_LEN 'a') none).2.notes.map cn_note.title
      = [['n']] ∧
    (cn_note_edit
      { notes := [{ id := 1, title := ['o'], content := ['b'], tags := [],
                    created_at := 3, modified_at := 3 }],
        next_id := 2, capacity := 64 } 9 1 ['n']
      (List.replicate MAX_CONTENT_LEN 'a') none).2 ≠
      { notes := [{ id := 1, title := ['o'], content := ['b'], tags := [],
                    created_at := 3, modified_at := 3 }],
        next_id := 2, capacity := 64 } := by
  unfold cn_note_edit
  rw [if_neg (by decide : ¬ (1 : Nat) = 0)]
  have hf : cn_findIdx 1
      [{ id := 1, title := ['o'], content := ['b'], tags := [],
         created_at := 3, modified_at := 3 }] = some 0 := by decide
  simp only [hf]
  unfold applyEditFields
  rw [if_neg (by decide : ¬ (['n'] : List Char) = [])]
  rw [if_neg (by decide : ¬ MAX_TITLE_LEN ≤ (['n'] : List Char).length)]
  unfold applyEditContent
  rw [if_neg (replicate_ne_nil_of_pos _ _ (by decide))]
  rw [if_pos (by rw [List.length_replicate])]
  refine ⟨rfl, by decide, by decide⟩

/-- C2 amended: a rejected edit leaves the store unchanged only when the
rejection happens at the *first* failing bound check.  An oversized title is
rejected before any write, so the store is unchanged; but when a valid title
is supplied together with an oversized content, the title write has already
been committed when the content check fails, so the rejected edit leaves the
note with the new (trimmed, truncated) title while content, tags and
`modified_at` keep their old values. -/
theorem edit_reject_mutation_characterization (db : cn_note_db) (now : Int)
    (id : Nat) :
    (∀ title content tags, title ≠ [] → MAX_TITLE_LEN ≤ title.length →
      cn_note_edit db now id title content tags = (false, db)) ∧
    (∀ title content tags i, cn_findIdx id db.notes = some i → id ≠ 0 →
      title ≠ [] → title.length < MAX_TITLE_LEN →
      content ≠ [] → MAX_CONTENT_LEN ≤ content.length →
      cn_note_edit db now id title content tags =
        (false, { db with notes := db.notes.set i ({ db.notes.getD i zeroNote with title := cn_strip_whitespace (cn_safe_strncpy title MAX_TITLE_LEN) }) })) := by
  constructor
  · intro title content tags htne htbig
    unfold cn_note_edit
    by_cases h0 : id = 0
    · rw [if_pos h0]
    · rw [if_neg h0]
      cases hf : cn_findIdx id db.notes with
      | none => rfl
      | some i =>
        simp only
        unfold applyEditFields
        rw [if_neg htne, if_pos htbig]
        simp only
        rw [set_getD_self]
  · intro title content tags i hf h0 htne htok hcne hcbig
    unfold cn_note_edit
    rw [if_neg h0]
    simp only [hf]
    unfold applyEditFields
    rw [if_neg htne, if_neg (Nat.not_le.mpr htok)]
    unfold applyEditContent
    rw [if_neg hcne, if_pos hcbig]

/-- Witness for C2's amended theorem: both conjuncts applied on a concrete
one-note store, with an oversized title and with a valid title plus an
oversized content. -/
theorem edit_reject_mutation_characterization_witness :
    cn_note_edit
      { notes := [{ id := 1, title := ['o'], content := ['b'], tags := [],
                    created_at := 3, modified_at := 3 }],
        next_id := 2, capacity := 64 } 9 1
      (List.replicate MAX_TITLE_LEN 't') ['c'] none =
      (false,
       { notes := [{ id := 1, title := ['o'], content := ['b'], tags := [],
                     created_at := 3, modified_at := 3 }],
         next_id := 2, capacity := 64 }) ∧
    cn_note_edit
      { notes := [{ id := 1, title := ['o'], content := ['b'], tags := [],
                    created_at := 3, modified_at := 3 }],
        next_id := 2, capacity := 64 } 9 1 ['n']
      (List.replicate MAX_CONTENT_LEN 'a') none =
      (false,
       { notes := [{ id := 1,
                     title := cn_strip_whitespace (cn_safe_strncpy ['n'] MAX_TITLE_LEN),
                     content := ['b'], tags := [], created_at := 3, modified_at := 3 }],
         next_id := 2, capacity := 64 }) := by
  constructor
  · exact (edit_reject_mutation_characterization _ 9 1).1
      (List.replicate MAX_TITLE_LEN 't') ['c'] none
      (replicate_ne_nil_of_pos _ _ (by decide))
      (by rw [List.length_replicate])
  · have h := (edit_reject_mutation_characterization
      { notes := [{ id := 1, title := ['o'], content := ['b'], tags := [],
                    created_at := 3, modified_at := 3 }],
        next_id := 2, capacity := 64 } 9 1).2 ['n']
      (List.replicate MAX_CONTENT_LEN 'a') none 0 (by decide) (by decide)
      (by decide) (by decide)
      (replicate_ne_nil_of_pos _ _ (by decide))
      (by rw [List.length_replicate])
    simpa using h

/-- C3 counterexample: `cn_note_add` accepts the whitespace-only title
`" "` (it is non-empty and within bounds at validation time), but trimming
happens *after* the copy, so the stored note has an *empty* title —
contradicting the claim that every stored note has a non-empty title. -/
theorem add_whitespace_title_stored_empty :
    cn_note_add cn_db_init 0 [' '] ['x'] none =
      some (1, { notes := [{ id := 1, title := [], content := ['x'], tags := [],
                             created_at := 0, modified_at := 0 }],
                 next_id := 2, capacity := 64 }) := by decide

/-- C3 amended: a successful add appends exactly one note whose title and
content are the whitespace-trimmed inputs; these are non-empty exactly when
the accepted input contains at least one non-whitespace character, so a
whitespace-only accepted input is stored with an empty field. -/
theorem add_stores_trimmed_fields {db : cn_note_db} {now : Int}
    {title content : List Char} {tags : Option (List Char)} {id : Nat}
    {db' : cn_note_db}
    (h : cn_note_add db now title content tags = some (id, db')) :
    ∃ n : cn_note, db'.notes = db.notes ++ [n] ∧
      n.title = cn_strip_whitespace title ∧
      n.content = cn_strip_whitespace content ∧
      (n.title = [] ↔ ∀ c ∈ title, cIsSpace c) ∧
      (n.content = [] ↔ ∀ c ∈ content, cIsSpace c) := by
  obtain ⟨htne, hcne, htlen, hclen, -, -, cap', -, rfl⟩ := add_some_shape h
  have ht : cn_safe_strncpy title MAX_TITLE_LEN = title := by
    unfold cn_safe_strncpy
    exact List.take_of_length_le (by omega)
  have hc : cn_safe_strncpy content MAX_CONTENT_LEN = content := by
    unfold cn_safe_strncpy
    exact List.take_of_length_le (by omega)
  refine ⟨_, rfl, ?_, ?_, ?_, ?_⟩
  · dsimp only; rw [ht]
  · dsimp only; rw [hc]
  · dsimp only; rw [ht]; exact strip_eq_nil_iff title
  · dsimp only; rw [hc]; exact strip_eq_nil_iff content

/-- Witness for C3's amended theorem at the whitespace-only title input. -/
theorem add_stores_trimmed_fields_witness :
    ∃ n : cn_note,
      (cn_note_db.notes
        { notes := [{ id := 1, title := [], content := ['x'], tags := [],
                      created_at := 0, modified_at := 0 }],
          next_id := 2, capacity := 64 }) = cn_db_init.notes ++ [n] ∧
      n.title = cn_strip_whitespace [' '] ∧
      n.content = cn_strip_whitespace ['x'] ∧
      (n.title = [] ↔ ∀ c ∈ [' '], cIsSpace c) ∧
      (n.content = [] ↔ ∀ c ∈ ['x'], cIsSpace c) :=
  add_stores_trimmed_fields
    (show cn_note_add cn_db_init 0 [' '] ['x'] none =
      some (1, { notes := [{ id := 1, title := [], content := ['x'], tags := [],
                             created_at := 0, modified_at := 0 }],
                 next_id := 2, capacity := 64 }) by decide)

/-- C7 counterexample: the claim says a query consisting only of commas
(all sub-tokens empty) matches unconditionally, *including against a note
with no tags*; but `cn_note_match_tags` returns early with `false` whenever
the note has no tags and the query string is non-empty, so the comma-only
query `","` does not match the empty tag string. -/
theorem match_tags_empty_note_comma_query :
    cn_note_match_tags [] [','] = false := rfl

/-- C7 amended: for in-bounds inputs, a non-empty query against a note
*with no tags* always fails (regardless of the query's sub-tokens); in all
other cases the result is the AND, over the non-empty trimmed comma-split
sub-tokens of the lower-cased query, of substring occurrence in the
lower-cased note tags. -/
theorem match_tags_characterization (note_tags search_tags : List Char)
    (hn : note_tags.length < MAX_TAGS_LEN) (hs : search_tags.length < MAX_TAGS_LEN) :
    cn_note_match_tags note_tags search_tags = true ↔
      (search_tags = [] ∨
        (note_tags ≠ [] ∧
          ∀ tok ∈ splitCommas (lowerStr search_tags),
            cn_strip_whitespace tok ≠ [] →
              isSubstr (cn_strip_whitespace tok) (lowerStr note_tags) = true)) := by
  unfold cn_note_match_tags
  by_cases hse : search_tags = []
  · simp [hse]
  · rw [if_neg hse]
    by_cases hne : note_tags = []
    · rw [if_pos hne]
      simp [hse, hne]
    · rw [if_neg hne]
      rw [if_neg (by simp [Nat.not_le.mpr hn, Nat.not_le.mpr hs])]
      simp only [List.all_eq_true]
      constructor
      · intro h
        right
        refine ⟨hne, ?_⟩
        intro tok htok hts
        have htok' := h tok htok
        simp only [Bool.or_eq_true, decide_eq_true_eq] at htok'
        rcases htok' with htok' | htok'
        · exact absurd htok' hts
        · exact htok'
      · rintro (h | ⟨-, h⟩)
        · exact absurd h hse
        · intro tok htok
          by_cases ht : cn_strip_whitespace tok = []
          · simp [ht]
          · simp [ht, h tok htok ht]

/-- Witness for C7's amended theorem: `"git,cli"` matched against the query
`"CLI, git"` (case-insensitive, trimmed, AND over sub-tokens). -/
theorem match_tags_characterization_witness :
    cn_note_match_tags ['g','i','t',',','c','l','i'] ['C','L','I',',',' ','g','i','t'] = true ↔
      (['C','L','I',',',' ','g','i','t'] = ([] : List Char) ∨
        (['g','i','t',',','c','l','i'] ≠ ([] : List Char) ∧
          ∀ tok ∈ splitCommas (lowerStr ['C','L','I',',',' ','g','i','t']),
            cn_strip_whitespace tok ≠ [] →
              isSubstr (cn_strip_whitespace tok)
                (lowerStr ['g','i','t',',','c','l','i']) = true)) :=
  match_tags_characterization ['g','i','t',',','c','l','i']
    ['C','L','I',',',' ','g','i','t'] (by decide) (by decide)
